import Mathlib

/-!
Verification of the db-plumbing-mongo document-store access layer
(`src/store.js`): the typed-patch diff translator (`Store._diffToMongo`,
`Store.diffToMongo`), the bulk classifier and sequencer (`Store.bulk`),
the predicate index registry (`IndexMap`), and the facade operations
`find`, `update`, `findAll`, `removeAll`.

The JavaScript source is shallowly embedded: JS objects used as ordered
string-keyed maps become association lists (`List (String × _)`), patch
values are a type parameter `V`, thrown exceptions become `Except`, and
the sequence of backend calls a piece of code performs is made explicit
as a trace of `BackendCmd` values.
-/

set_option autoImplicit false
set_option maxRecDepth 4000

namespace DbPlumbing

/-- Errors surfaced by the store layer.  `typeError` models a JavaScript
`TypeError` (property access on `undefined`); `unknownDiffOperation`
models `Error('Unkown diff operation ...')` thrown by `Store.bulk`;
`unsupportedIndex` models `Error('mongo does not understand index ...')`
thrown by `IndexMap.toMongoCriteria`; `doesNotExist` models the
`DoesNotExist` rejection of `Store.find`. -/
inductive StoreErr where
  | typeError
  | unknownDiffOperation
  | unsupportedIndex (name : String)
  | doesNotExist
deriving DecidableEq

/-- The typed-patch operation grammar consumed by `src/store.js`
(an external library; only the four variants the store dispatches on
are relevant).  `Mrg` carries an ordered field map, modelled as an
association list because JS objects preserve string-key insertion
order.  Leaf data is an opaque scalar type `V`. -/
inductive Patch (V : Type) where
  | Rpl (data : V)
  | DEL
  | Mrg (data : List (String × Patch V))
  | Ins (data : V)

/-- The mutable `{ $set: {...}, $unset: {...} }` accumulator threaded
through `Store._diffToMongo`.  `$unset` values are always the empty
string in the source, so only the keys are recorded. -/
structure MongoAcc (V : Type) where
  set : List (String × V)
  unset : List String
deriving DecidableEq

/-- The finished update command returned by `Store.diffToMongo`: the
`$set` / `$unset` groups after the `delete mongo.$set` /
`delete mongo.$unset` statements that drop an empty group. -/
structure MongoCommand (V : Type) where
  set? : Option (List (String × V))
  unset? : Option (List String)
deriving DecidableEq

/-- JS property assignment `obj[k] = v` on an object modelled as an
association list: overwrite in place if the key exists (keeping its
position, as JS does), otherwise append. -/
def objUpd {β : Type} : List (String × β) → String → β → List (String × β)
  | [], k, v => [(k, v)]
  | (k', v') :: rest, k, v =>
    if k' = k then (k, v) :: rest else (k', v') :: objUpd rest k v

/-- `mongo.$unset[path] = ''` keyed-set update: the value is always
`''`, so only key membership and order matter. -/
def addUnset : List String → String → List String
  | [], k => [k]
  | k' :: rest, k => if k' = k then k' :: rest else k' :: addUnset rest k

/-- JS property read `obj[k]` on an object modelled as an association
list (`undefined` becomes `none`). -/
def jsGet {β : Type} : List (String × β) → String → Option β
  | [], _ => none
  | (k', v) :: rest, k => if k' = k then some v else jsGet rest k

/-- `jsGet` packaged with a size certificate for the returned value,
used by `diffLoop`'s termination argument (the value returned by a
lookup is structurally contained in the list). -/
def jsGetSized {β : Type} [SizeOf β] :
    (l : List (String × β)) → String → Option { q : β // sizeOf q < sizeOf l }
  | [], _ => none
  | (k', v) :: rest, k =>
    if k' = k then
      some ⟨v, by simp only [List.cons.sizeOf_spec, Prod.mk.sizeOf_spec]; omega⟩
    else
      match jsGetSized rest k with
      | none => none
      | some ⟨q, hq⟩ =>
        some ⟨q, by simp only [List.cons.sizeOf_spec]; omega⟩

/-- The loop body of `Store._diffToMongo(diff, mongo, context)`:
`for (let name in diff)` walks the field map `iter` (initially the
whole of `diff`), dispatching on the patch variant of each field:

* `Rpl data`  → `mongo.$set[context + name] = data`;
* `DEL`       → `mongo.$unset[context + name] = ''`;
* `Mrg _`     → the source executes
  `Store.diffToMongo(diff[property].data, mongo, context + property + '.')`,
  where `property` is the patch *object*, so `diff[property]` looks the
  operation's string form up in `diff`.  When the lookup yields
  `undefined` the `.data` access throws a `TypeError`.  When it finds a
  patch, the 1-argument `diffToMongo` ignores the extra arguments,
  accumulates into a fresh command that is then discarded, and only its
  thrown exceptions propagate (a found `Mrg` re-enters the loop on its
  own field map; any other found patch iterates over scalar data, a
  no-op).  In no case does anything reach `mongo`;
* `Ins _` (or any other variant) matches no branch and is skipped.

`toStr` abstracts JavaScript's string coercion of a patch object; all
results below hold for every choice of `toStr`. -/
def diffLoop {V : Type} (toStr : Patch V → String) :
    (diff : List (String × Patch V)) → (iter : List (String × Patch V)) →
    MongoAcc V → String → Except StoreErr (MongoAcc V)
  | _, [], mongo, _ => .ok mongo
  | diff, (name, property) :: rest, mongo, context =>
    match property with
    | .Rpl data =>
        diffLoop toStr diff rest ⟨objUpd mongo.set (context ++ name) data, mongo.unset⟩ context
    | .DEL =>
        diffLoop toStr diff rest ⟨mongo.set, addUnset mongo.unset (context ++ name)⟩ context
    | .Ins _ => diffLoop toStr diff rest mongo context
    | .Mrg _ =>
      match jsGetSized diff (toStr property) with
      | none => .error .typeError
      | some ⟨.Mrg fields₂, _⟩ =>
        match diffLoop toStr fields₂ fields₂ ⟨[], []⟩ "" with
        | .error e => .error e
        | .ok _ => diffLoop toStr diff rest mongo context
      | some ⟨_, _⟩ => diffLoop toStr diff rest mongo context
  termination_by diff iter _ _ => (sizeOf diff, iter.length)
  decreasing_by
    all_goals simp_wf
    all_goals simp only [Prod.lex_def, List.length_cons, true_and]
    all_goals try simp only [Patch.Mrg.sizeOf_spec] at *
    all_goals omega

/-- `Store.diffToMongo(diff)`: run `_diffToMongo` on a fresh
`{ $set: {}, $unset: {} }` accumulator with the empty path context,
then delete whichever of the two groups ended up empty. -/
def diffToMongo {V : Type} (toStr : Patch V → String)
    (diff : List (String × Patch V)) : Except StoreErr (MongoCommand V) :=
  match diffLoop toStr diff diff ⟨[], []⟩ "" with
  | .error e => .error e
  | .ok mongo =>
      .ok ⟨if mongo.set.isEmpty then none else some mongo.set,
           if mongo.unset.isEmpty then none else some mongo.unset⟩

/-- The three queues built by the classification loop of `Store.bulk`:
`updates` holds `(key, op.data)` for each `Mrg` entry (the translation
to a Mongo command happens later, inside `_updateFromDiff`), `inserts`
holds `this.type.fromJSON(op.data)` for each `Ins` entry, `deletes`
holds the key of each `DEL` entry. -/
structure BulkQueues (K V E : Type) where
  updates : List (K × List (String × Patch V))
  inserts : List E
  deletes : List K

/-- The `for (let [key,op] of patch.data)` classification loop of
`Store.bulk`.  A `Rpl` (or any unrecognized) operation at the top level
throws `Error('Unkown diff operation ...')` immediately: classification
stops, and the queues accumulated so far are returned because the
update thunks already chained on the promise still run. -/
def classify {K V E : Type} (fromJSON : V → E) :
    List (K × Patch V) → BulkQueues K V E → BulkQueues K V E × Option StoreErr
  | [], acc => (acc, none)
  | (key, op) :: rest, ⟨upds, ins, dels⟩ =>
    match op with
    | .Mrg fields => classify fromJSON rest ⟨upds ++ [(key, fields)], ins, dels⟩
    | .Ins data => classify fromJSON rest ⟨upds, ins ++ [fromJSON data], dels⟩
    | .DEL => classify fromJSON rest ⟨upds, ins, dels ++ [key]⟩
    | .Rpl _ => (⟨upds, ins, dels⟩, some .unknownDiffOperation)

/-- A backend call issued by the store: `collection.updateOne` with a
partial-update command (from `_updateFromDiff`), `collection.insertMany`
(from `_bulkInsert`), or `collection.deleteMany` (from `_bulkRemove`). -/
inductive BackendCmd (K V E : Type) where
  | updateOne (key : K) (cmd : MongoCommand V)
  | insertMany (items : List E)
  | deleteMany (keys : List K)
deriving DecidableEq

/-- How a `Store.bulk` invocation terminates: the returned promise
resolves, the returned promise rejects, or `bulk` itself throws
synchronously during classification (before returning a promise). -/
inductive BulkOutcome where
  | resolved
  | rejected
  | syncThrow (e : StoreErr)
deriving DecidableEq

/-- The sequential update phase of `Store.bulk`: the promise chain
`updates = updates.then(() => this._updateFromDiff(key, op))` issues
one `updateOne` per queued key, each awaited before the next starts.
`_updateFromDiff` first computes `Store.diffToMongo(diff.data)`; if
that throws, the chain rejects without a backend call for this key and
later links are skipped.  If the backend call itself fails
(`backendOk` is false), the command was issued but the chain rejects
there.  Returns the trace of issued commands and whether the whole
phase succeeded. -/
def execUpdates {K V E : Type} (toStr : Patch V → String)
    (backendOk : K → MongoCommand V → Bool) :
    List (K × List (String × Patch V)) → List (BackendCmd K V E) × Bool
  | [] => ([], true)
  | (key, fields) :: rest =>
    match diffToMongo toStr fields with
    | .error _ => ([], false)
    | .ok cmd =>
      let r : List (BackendCmd K V E) × Bool := execUpdates toStr backendOk rest
      if backendOk key cmd then ((.updateOne key cmd) :: r.1, r.2)
      else ([.updateOne key cmd], false)

/-- The insert-then-delete tail of `Store.bulk`:
`if (inserts.length > 0) operation = operation.then(() => this._bulkInsert(inserts))`
followed by the analogous line for deletes.  A phase with an empty
queue is never chained; a failing `insertMany` rejects the chain so
`deleteMany` is skipped. -/
def runInsertsDeletes {K V E : Type} (insertOk : List E → Bool)
    (deleteOk : List K → Bool) (inserts : List E) (deletes : List K) :
    List (BackendCmd K V E) × BulkOutcome :=
  if inserts.isEmpty then
    if deletes.isEmpty then ([], .resolved)
    else ([.deleteMany deletes], if deleteOk deletes then .resolved else .rejected)
  else
    if insertOk inserts then
      if deletes.isEmpty then ([.insertMany inserts], .resolved)
      else ([.insertMany inserts, .deleteMany deletes],
            if deleteOk deletes then .resolved else .rejected)
    else ([.insertMany inserts], .rejected)

/-- `Store.bulk(patch)` under the JavaScript event loop, with the
collection promise resolved and backend behavior abstracted by
`backendOk` / `insertOk` / `deleteOk`: classify every entry; if
classification throws, `bulk` throws synchronously but the update
callbacks already chained onto `Promise.resolve()` are already queued
as microtasks and still execute (the insert/delete phases were never
chained and are not issued); otherwise run the update chain and, when
it succeeds, the optional bulk insert then the optional bulk delete.
Returns the trace of issued backend commands and the outcome. -/
def bulkRun {K V E : Type} (toStr : Patch V → String) (fromJSON : V → E)
    (backendOk : K → MongoCommand V → Bool) (insertOk : List E → Bool)
    (deleteOk : List K → Bool) (patch : List (K × Patch V)) :
    List (BackendCmd K V E) × BulkOutcome :=
  match classify fromJSON patch ⟨[], [], []⟩ with
  | (queues, some e) =>
      ((execUpdates toStr backendOk queues.updates).1, .syncThrow e)
  | (queues, none) =>
      let u : List (BackendCmd K V E) × Bool :=
        execUpdates toStr backendOk queues.updates
      let r : List (BackendCmd K V E) × BulkOutcome :=
        runInsertsDeletes insertOk deleteOk queues.inserts queues.deletes
      if u.2 then (u.1 ++ r.1, r.2) else (u.1, .rejected)

/-- The update queue a batch patch classifies to: one `(key, fields)`
pair per `Mrg` entry, in batch order. -/
def mrgEntries {K V : Type} (patch : List (K × Patch V)) :
    List (K × List (String × Patch V)) :=
  patch.filterMap fun kv =>
    match kv.2 with
    | .Mrg fields => some (kv.1, fields)
    | _ => none

/-- The insert queue a batch patch classifies to: `fromJSON` of each
`Ins` entry's data, in batch order. -/
def insEntries {K V E : Type} (fromJSON : V → E) (patch : List (K × Patch V)) :
    List E :=
  patch.filterMap fun kv =>
    match kv.2 with
    | .Ins data => some (fromJSON data)
    | _ => none

/-- The delete queue a batch patch classifies to: the key of each `DEL`
entry, in batch order. -/
def delEntries {K V : Type} (patch : List (K × Patch V)) : List K :=
  patch.filterMap fun kv =>
    match kv.2 with
    | .DEL => some kv.1
    | _ => none

/-- The backend-command sequence the specification prescribes for a
batch of `Merge`/`Insert`/`Delete` entries: first one partial-update
command per `Merge` entry in batch order, then one bulk insert carrying
all queued values if any, then one bulk delete carrying all queued keys
if any; a phase with no queued work issues no command.  Stated from the
spec's words, to be compared with `bulkRun`. -/
def bulkSpecTrace {K V E : Type} (toStr : Patch V → String) (fromJSON : V → E)
    (patch : List (K × Patch V)) : List (BackendCmd K V E) :=
  (mrgEntries patch).filterMap
      (fun kf => ((diffToMongo toStr kf.2).toOption).map (BackendCmd.updateOne kf.1))
    ++ (if (insEntries fromJSON patch).isEmpty then []
        else [.insertMany (insEntries fromJSON patch)])
    ++ (if (delEntries patch).isEmpty then []
        else [.deleteMany (delEntries patch)])

/-- A backend document: an ordered string-keyed record with values in
`V` (the `_id` lives in the field `"_id"`). -/
abbrev Doc (V : Type) := List (String × V)

/-- The state of the backing collection: its documents in insertion
order. -/
abbrev Collection (V : Type) := List (Doc V)

/-- Modelled from the spec: the MongoDB backend collaborator is
excluded from the repository; per the external-interface section a
filter such as `{_id: k}` or `{a: v}` matches the documents whose named
fields equal the given values. -/
def docMatches {V : Type} [DecidableEq V] (criteria : List (String × V))
    (d : Doc V) : Bool :=
  criteria.all fun fv => decide (jsGet d fv.1 = some fv.2)

/-- Modelled from the spec: the backend collaborator's
`findOne(filter)`, returning the first matching document or null. -/
def findOne {V : Type} [DecidableEq V] (st : Collection V)
    (criteria : List (String × V)) : Option (Doc V) :=
  st.find? (docMatches criteria)

/-- Modelled from the spec: the backend collaborator's
`updateOne(filter, document, {upsert: true})` with a replacement
document — replace the first matching document, or append the document
when nothing matches. -/
def updateOneUpsert {V : Type} [DecidableEq V] (st : Collection V)
    (criteria : List (String × V)) (d : Doc V) : Collection V :=
  match st with
  | [] => [d]
  | d' :: rest =>
    if docMatches criteria d' then d :: rest
    else d' :: updateOneUpsert rest criteria d

/-- `DEFAULT_OPTIONS.entry`: `(_id, data) => Object.assign({}, data, {_id})` —
the stored document is the entity's fields with the `_id` field
overwritten (or appended). -/
def defaultEntry {V : Type} (i : V) (data : Doc V) : Doc V :=
  objUpd data "_id" i

/-- `Store.update(object)`: compute `_id = options.key(object)` and
issue `updateOne({_id}, options.entry(_id, object), {upsert: true})`.
The new collection state is returned. -/
def storeUpdate {V E : Type} [DecidableEq V] (key : E → V)
    (entry : V → E → Doc V) (st : Collection V) (object : E) : Collection V :=
  updateOneUpsert st [("_id", key object)] (entry (key object) object)

/-- `Store.find(_id)`: `collection.findOne({_id})`, then throw
`DoesNotExist` on null, else build the entity with
`this.type.fromJSON(this.options.value(item))`. -/
def storeFind {V E' : Type} [DecidableEq V] (fromJSON : Doc V → E')
    (value : Doc V → Doc V) (st : Collection V) (i : V) : Except StoreErr E' :=
  match findOne st [("_id", i)] with
  | none => .error .doesNotExist
  | some item => .ok (fromJSON (value item))

/-- A named index filter function `(value, item) => boolean`: only its
`name` is ever consulted by `IndexMap` (the body is never invoked by
this layer), so only the name is modelled. -/
structure NamedPredicate where
  name : String

/-- `IndexMap`: maps an index function's name to a function producing
mongodb criteria from a value. -/
structure IndexMap (V : Type) where
  maps : List (String × (V → List (String × V)))

/-- `IndexMap.addSimpleField(index, name)`: bind `index.name` to
`value => {[name]: value}` (the source builds that one-property object
with `Object.defineProperty`) and return the registry for fluent
chaining. -/
def IndexMap.addSimpleField {V : Type} (im : IndexMap V)
    (index : NamedPredicate) (name : String) : IndexMap V :=
  ⟨objUpd im.maps index.name (fun value => [(name, value)])⟩

/-- `IndexMap.toMongoCriteria(index, value)`: look `index.name` up in
`this.maps`; throw `Error('mongo does not understand index ...')` when
absent, else apply the stored map to the value. -/
def IndexMap.toMongoCriteria {V : Type} (im : IndexMap V)
    (index : NamedPredicate) (value : V) :
    Except StoreErr (List (String × V)) :=
  match jsGet im.maps index.name with
  | none => .error (.unsupportedIndex index.name)
  | some map => .ok (map value)

/-- `Store.findAll(index, value)`: translate the index to mongo
criteria — synchronously, before the collection is touched — then
`collection.find(criteria).toArray()` mapped through
`type.fromJSON ∘ options.value`.  Returns the list of queries issued to
the backend together with the result; a translation failure issues no
query. -/
def storeFindAll {V E' : Type} [DecidableEq V] (im : IndexMap V)
    (fromJSON : Doc V → E') (value : Doc V → Doc V) (index : NamedPredicate)
    (v : V) (st : Collection V) :
    List (List (String × V)) × Except StoreErr (List E') :=
  match im.toMongoCriteria index v with
  | .error e => ([], .error e)
  | .ok criteria =>
      ([criteria],
       .ok ((st.filter (docMatches criteria)).map fun item => fromJSON (value item)))

/-- `Store.removeAll(index, value)`: translate the index — again before
the collection is touched — then `collection.remove(criteria)`, which
deletes every matching document.  Returns the queries issued, the new
collection state and the result. -/
def storeRemoveAll {V : Type} [DecidableEq V] (im : IndexMap V)
    (index : NamedPredicate) (v : V) (st : Collection V) :
    List (List (String × V)) × Collection V × Except StoreErr Unit :=
  match im.toMongoCriteria index v with
  | .error e => ([], st, .error e)
  | .ok criteria =>
      ([criteria], st.filter (fun d => !docMatches criteria d), .ok ())

/-! ## Helper lemmas -/

theorem jsGet_objUpd_self {β : Type} (l : List (String × β)) (k : String) (v : β) :
    jsGet (objUpd l k v) k = some v := by
  induction l with
  | nil => simp [objUpd, jsGet]
  | cons p rest ih =>
    obtain ⟨k', v'⟩ := p
    by_cases h : k' = k <;> simp [objUpd, jsGet, h, ih]

theorem jsGet_objUpd_ne {β : Type} (l : List (String × β)) (k k' : String)
    (v : β) (h : k' ≠ k) : jsGet (objUpd l k v) k' = jsGet l k' := by
  induction l with
  | nil => simp [objUpd, jsGet, Ne.symm h]
  | cons p rest ih =>
    obtain ⟨k₀, v₀⟩ := p
    by_cases h0 : k₀ = k
    · subst h0
      simp [objUpd, jsGet, Ne.symm h]
    · simp [objUpd, jsGet, h0, ih]

theorem execUpdates_shape {K V E : Type} (toStr : Patch V → String)
    (backendOk : K → MongoCommand V → Bool)
    (l : List (K × List (String × Patch V))) :
    ∀ c ∈ (execUpdates toStr backendOk l : List (BackendCmd K V E) × Bool).1,
      ∃ k cmd, c = BackendCmd.updateOne k cmd := by
  induction l with
  | nil => simp [execUpdates]
  | cons p rest ih =>
    obtain ⟨key, fields⟩ := p
    intro c hc
    rw [execUpdates] at hc
    cases hdm : diffToMongo toStr fields with
    | error e => rw [hdm] at hc; simp at hc
    | ok cmd =>
      rw [hdm] at hc
      by_cases hb : backendOk key cmd = true
      · simp only [hb, if_true] at hc
        rcases List.mem_cons.mp hc with h | h
        · exact ⟨key, cmd, h⟩
        · exact ih c h
      · simp only [Bool.not_eq_true] at hb
        simp [hb] at hc
        exact ⟨key, cmd, hc⟩

theorem classify_ok {K V E : Type} (fromJSON : V → E) :
    ∀ (patch : List (K × Patch V)), (∀ k v, (k, Patch.Rpl v) ∉ patch) →
      ∀ acc : BulkQueues K V E,
        classify fromJSON patch acc
          = (⟨acc.updates ++ mrgEntries patch,
              acc.inserts ++ insEntries fromJSON patch,
              acc.deletes ++ delEntries patch⟩, none) := by
  intro patch
  induction patch with
  | nil => intro _ acc; simp [classify, mrgEntries, insEntries, delEntries]
  | cons p rest ih =>
    intro hno acc
    obtain ⟨key, op⟩ := p
    obtain ⟨upds, ins, dels⟩ := acc
    have hrest : ∀ k v, (k, Patch.Rpl v) ∉ rest :=
      fun k v hm => hno k v (List.mem_cons_of_mem _ hm)
    cases op with
    | Rpl v => exact absurd (List.mem_cons_self _ _) (hno key v)
    | Mrg fields =>
      simp [classify, ih hrest, mrgEntries, insEntries, delEntries]
    | Ins data =>
      simp [classify, ih hrest, mrgEntries, insEntries, delEntries]
    | DEL =>
      simp [classify, ih hrest, mrgEntries, insEntries, delEntries]

theorem classify_some_of_rpl {K V E : Type} (fromJSON : V → E) :
    ∀ (patch : List (K × Patch V)) (acc : BulkQueues K V E),
      (∃ k v, (k, Patch.Rpl v) ∈ patch) →
      ∃ qs, classify fromJSON patch acc = (qs, some .unknownDiffOperation) := by
  intro patch
  induction patch with
  | nil =>
    intro acc h
    obtain ⟨k, v, hm⟩ := h
    simp at hm
  | cons p rest ih =>
    intro acc h
    obtain ⟨k, v, hm⟩ := h
    obtain ⟨key, op⟩ := p
    obtain ⟨upds, ins, dels⟩ := acc
    cases op with
    | Rpl w => exact ⟨⟨upds, ins, dels⟩, by simp [classify]⟩
    | Mrg fields =>
      rcases List.mem_cons.mp hm with he | hr
      · simp at he
      · simpa [classify] using
          ih ⟨upds ++ [(key, fields)], ins, dels⟩ ⟨k, v, hr⟩
    | Ins data =>
      rcases List.mem_cons.mp hm with he | hr
      · simp at he
      · simpa [classify] using
          ih ⟨upds, ins ++ [fromJSON data], dels⟩ ⟨k, v, hr⟩
    | DEL =>
      rcases List.mem_cons.mp hm with he | hr
      · simp at he
      · simpa [classify] using ih ⟨upds, ins, dels ++ [key]⟩ ⟨k, v, hr⟩

theorem mem_mrgEntries {K V : Type} (patch : List (K × Patch V)) (k : K)
    (fields : List (String × Patch V)) (h : (k, fields) ∈ mrgEntries patch) :
    (k, Patch.Mrg fields) ∈ patch := by
  unfold mrgEntries at h
  rw [List.mem_filterMap] at h
  obtain ⟨⟨k', op⟩, hm, he⟩ := h
  cases op with
  | Rpl w => simp at he
  | DEL => simp at he
  | Ins data => simp at he
  | Mrg data =>
    simp only [Option.some.injEq, Prod.mk.injEq] at he
    obtain ⟨h1, h2⟩ := he
    subst h1; subst h2
    exact hm

theorem execUpdates_all_ok {K V E : Type} (toStr : Patch V → String) :
    ∀ (l : List (K × List (String × Patch V))),
      (∀ kf ∈ l, ∃ cmd, diffToMongo toStr kf.2 = .ok cmd) →
      (execUpdates toStr (fun _ _ => true) l : List (BackendCmd K V E) × Bool)
        = (l.filterMap (fun kf => ((diffToMongo toStr kf.2).toOption).map
            (BackendCmd.updateOne kf.1)), true) := by
  intro l
  induction l with
  | nil => intro _; simp [execUpdates]
  | cons p rest ih =>
    intro hall
    obtain ⟨key, fields⟩ := p
    obtain ⟨cmd, hcmd⟩ := hall (key, fields) (List.mem_cons_self _ _)
    have ihr := ih (fun kf hm => hall kf (List.mem_cons_of_mem _ hm))
    simp [execUpdates, hcmd, ihr, Except.toOption]

theorem updateOneUpsert_idem {V : Type} [DecidableEq V]
    (criteria : List (String × V)) (d : Doc V)
    (hd : docMatches criteria d = true) :
    ∀ st : Collection V,
      updateOneUpsert (updateOneUpsert st criteria d) criteria d
        = updateOneUpsert st criteria d := by
  intro st
  induction st with
  | nil => simp [updateOneUpsert, hd]
  | cons d' rest ih =>
    by_cases h : docMatches criteria d' = true
    · simp [updateOneUpsert, h, hd]
    · simp [updateOneUpsert, h, hd, ih]

/-! ## Claim theorems -/

/-- Claim C1.  The specification says that for a field `f` whose patch is
`Merge(sub)`, the translator recurses and accumulates dotted-path
instructions (`set("f.g", v)` / `unset("f.g")`) into the same command.
The code does not: on the nested-merge diff `{b: Mrg({c: Rpl "x"})}` the
`Mrg` branch evaluates `diff[property]`, indexing `diff` by the operation
object's string form.  For every string coercion `toStr`, either that
lookup misses and the `.data` access throws a `TypeError`, or it
accidentally hits a field and the recursive call's result is discarded —
so the result is either an error or the empty command, and the promised
`set("b.c", "x")` instruction never appears. -/
theorem diffToMongo_nested_merge_never_flattens
    (toStr : Patch String → String) :
    diffToMongo toStr [("b", Patch.Mrg [("c", Patch.Rpl "x")])]
        = .error .typeError ∨
    diffToMongo toStr [("b", Patch.Mrg [("c", Patch.Rpl "x")])]
        = .ok ⟨none, none⟩ := by
  by_cases h : "b" = toStr (Patch.Mrg [("c", Patch.Rpl "x")])
  · right
    simp [diffToMongo, diffLoop, jsGetSized, ← h, objUpd]
  · left
    simp [diffToMongo, diffLoop, jsGetSized, h]

/-- Claim C5: a translated command carries a `$set` group only when at
least one field produced a set instruction and a `$unset` group only when
at least one field produced an unset instruction — an empty group is
omitted entirely, never present-but-empty — and the empty `Merge`
translates, without error, to the command with neither group. -/
theorem diffToMongo_omits_empty_groups {V : Type} (toStr : Patch V → String) :
    diffToMongo toStr ([] : List (String × Patch V)) = .ok ⟨none, none⟩ ∧
    ∀ (diff : List (String × Patch V)) (cmd : MongoCommand V),
      diffToMongo toStr diff = .ok cmd →
      (∀ l, cmd.set? = some l → l ≠ []) ∧ (∀ l, cmd.unset? = some l → l ≠ []) := by
  constructor
  · simp [diffToMongo, diffLoop]
  · intro diff cmd h
    unfold diffToMongo at h
    cases hl : diffLoop toStr diff diff ⟨[], []⟩ "" with
    | error e => rw [hl] at h; simp at h
    | ok m =>
      rw [hl] at h
      simp only [Except.ok.injEq] at h
      subst h
      constructor
      · intro l hl2
        replace hl2 : (if m.set.isEmpty then (none : Option (List (String × V)))
            else some m.set) = some l := hl2
        by_cases hs : m.set.isEmpty
        · rw [if_pos hs] at hl2
          cases hl2
        · rw [if_neg hs] at hl2
          injection hl2 with h2
          subst h2
          intro hnil
          exact hs (by simp [hnil])
      · intro l hl2
        replace hl2 : (if m.unset.isEmpty then (none : Option (List String))
            else some m.unset) = some l := hl2
        by_cases hs : m.unset.isEmpty
        · rw [if_pos hs] at hl2
          cases hl2
        · rw [if_neg hs] at hl2
          injection hl2 with h2
          subst h2
          intro hnil
          exact hs (by simp [hnil])

/-- Concrete instance of claim C5: a diff with one replaced and one
deleted field yields both groups, nonempty. -/
theorem diffToMongo_omits_empty_groups_witness :
    diffToMongo (fun _ => "") [("a", Patch.Rpl "x"), ("b", Patch.DEL)]
      = .ok ⟨some [("a", "x")], some ["b"]⟩ ∧
    ([("a", "x")] : List (String × String)) ≠ [] ∧ (["b"] : List String) ≠ [] := by
  have h : diffToMongo (fun _ => "") [("a", Patch.Rpl "x"), ("b", Patch.DEL)]
      = .ok ⟨some [("a", "x")], some ["b"]⟩ := by
    simp [diffToMongo, diffLoop, objUpd, addUnset]
  refine ⟨h, ?_, ?_⟩
  · exact ((diffToMongo_omits_empty_groups (fun _ => "")).2 _ _ h).1 _ rfl
  · exact ((diffToMongo_omits_empty_groups (fun _ => "")).2 _ _ h).2 _ rfl

/-- Claim C10: `bulk` applied to the empty batch patch resolves and
issues no backend command at all, for every backend behavior. -/
theorem bulk_empty_noop {K V E : Type} (toStr : Patch V → String)
    (fromJSON : V → E) (backendOk : K → MongoCommand V → Bool)
    (insertOk : List E → Bool) (deleteOk : List K → Bool) :
    bulkRun toStr fromJSON backendOk insertOk deleteOk ([] : List (K × Patch V))
      = ([], .resolved) := by
  simp [bulkRun, classify, execUpdates, runInsertsDeletes]

/-- Claim C2 (amended).  For every batch patch containing a top-level
`Rpl` entry, `bulk` throws `Error('Unkown diff operation ...')`
synchronously during classification; the queued bulk-insert and
bulk-delete commands are never issued (every issued command is a
per-key update), and when the offending entry is first — in particular
when no `Merge` entry precedes it — no backend command is issued at
all.  (The claim's stronger reading, that nothing is sent even for
entries classified earlier, fails: see
`bulk_top_replace_sends_prior_update`.) -/
theorem bulk_top_replace_fail_fast {K V E : Type} (toStr : Patch V → String)
    (fromJSON : V → E) (backendOk : K → MongoCommand V → Bool)
    (insertOk : List E → Bool) (deleteOk : List K → Bool)
    (patch : List (K × Patch V))
    (h : ∃ k v, (k, Patch.Rpl v) ∈ patch) :
    (bulkRun toStr fromJSON backendOk insertOk deleteOk patch).2
        = .syncThrow .unknownDiffOperation ∧
    (∀ c ∈ (bulkRun toStr fromJSON backendOk insertOk deleteOk patch).1,
        ∃ k cmd, c = BackendCmd.updateOne k cmd) ∧
    (∀ k v rest, patch = (k, Patch.Rpl v) :: rest →
        (bulkRun toStr fromJSON backendOk insertOk deleteOk patch).1 = []) := by
  obtain ⟨qs, hc⟩ := classify_some_of_rpl fromJSON patch ⟨[], [], []⟩ h
  refine ⟨?_, ?_, ?_⟩
  · unfold bulkRun
    rw [hc]
  · unfold bulkRun
    rw [hc]
    exact execUpdates_shape toStr backendOk qs.updates
  · intro k v rest hp
    subst hp
    have hc0 : classify fromJSON ((k, Patch.Rpl v) :: rest)
        (⟨[], [], []⟩ : BulkQueues K V E)
        = (⟨[], [], []⟩, some .unknownDiffOperation) := by
      simp [classify]
    unfold bulkRun
    rw [hc0]
    simp [execUpdates]

/-- Witness for claim C2: a batch whose only entry is a top-level
replace throws during classification and issues nothing. -/
theorem bulk_top_replace_fail_fast_witness :
    (bulkRun (fun _ => "") (fun s : String => s) (fun _ _ => true)
        (fun _ => true) (fun _ => true) [((1 : Nat), Patch.Rpl "y")]).2
      = .syncThrow .unknownDiffOperation ∧
    (bulkRun (fun _ => "") (fun s : String => s) (fun _ _ => true)
        (fun _ => true) (fun _ => true) [((1 : Nat), Patch.Rpl "y")]).1 = [] := by
  have h : ∃ (k : Nat) (v : String),
      (k, Patch.Rpl v) ∈ [((1 : Nat), Patch.Rpl "y")] := ⟨1, "y", by simp⟩
  obtain ⟨h1, _, h3⟩ := bulk_top_replace_fail_fast (fun _ => "")
    (fun s : String => s) (fun _ _ => true) (fun _ => true) (fun _ => true)
    [((1 : Nat), Patch.Rpl "y")] h
  exact ⟨h1, h3 1 "y" [] rfl⟩

/-- Counterexample to claim C2 as stated: in the batch
`{1: Mrg({b: Rpl "x"}), 2: Rpl "y"}` the top-level replace makes `bulk`
throw, yet the update for key 1 — chained onto the already-resolved
promise before the throw — still executes as a microtask, so a backend
command *is* sent and the collection is not left unchanged. -/
theorem bulk_top_replace_sends_prior_update :
    bulkRun (fun _ => "") (fun s : String => s) (fun _ _ => true)
        (fun _ => true) (fun _ => true)
        [((1 : Nat), Patch.Mrg [("b", Patch.Rpl "x")]), (2, Patch.Rpl "y")]
      = ([BackendCmd.updateOne 1 ⟨some [("b", "x")], none⟩],
         .syncThrow .unknownDiffOperation) := by
  simp [bulkRun, classify, execUpdates, diffToMongo, diffLoop, objUpd]

/-- Claim C3 (amended).  For a batch patch of only `Merge`, `Insert`
and `Delete` entries in which every `Merge` entry's field map
translates successfully, and with every backend call succeeding,
`bulk` issues exactly the specified command sequence: one partial
update per `Merge` entry in batch order, then at most one bulk insert
with all queued values, then at most one bulk delete with all queued
keys (empty phases issue nothing), and resolves.  (The translation
proviso is forced by the nested-merge defect: see
`bulk_nested_merge_breaks_phases`.) -/
theorem bulk_phases_order {K V E : Type} (toStr : Patch V → String)
    (fromJSON : V → E) (patch : List (K × Patch V))
    (honly : ∀ k v, (k, Patch.Rpl v) ∉ patch)
    (htr : ∀ k fields, (k, Patch.Mrg fields) ∈ patch →
        ∃ cmd, diffToMongo toStr fields = .ok cmd) :
    bulkRun toStr fromJSON (fun _ _ => true) (fun _ => true) (fun _ => true) patch
      = (bulkSpecTrace toStr fromJSON patch, .resolved) := by
  have hc := classify_ok fromJSON patch honly ⟨[], [], []⟩
  simp only [List.nil_append] at hc
  have hall : ∀ kf ∈ mrgEntries patch, ∃ cmd, diffToMongo toStr kf.2 = .ok cmd := by
    intro kf hm
    exact htr kf.1 kf.2 (mem_mrgEntries patch kf.1 kf.2 hm)
  have hex := @execUpdates_all_ok K V E toStr (mrgEntries patch) hall
  unfold bulkRun
  rw [hc]
  simp only [hex]
  unfold bulkSpecTrace runInsertsDeletes
  by_cases hi : (insEntries fromJSON patch).isEmpty <;>
    by_cases hd : (delEntries patch).isEmpty <;>
      simp [hi, hd]

/-- Witness for claim C3: a batch with one flat merge, one insert and
one delete issues the update, then the bulk insert, then the bulk
delete, and resolves. -/
theorem bulk_phases_order_witness :
    bulkRun (fun _ => "") (fun s : String => s) (fun _ _ => true)
        (fun _ => true) (fun _ => true)
        [((1 : Nat), Patch.Mrg [("b", Patch.Rpl "x")]),
         (2, Patch.Ins "v"), (3, Patch.DEL)]
      = (bulkSpecTrace (fun _ => "") (fun s : String => s)
          [((1 : Nat), Patch.Mrg [("b", Patch.Rpl "x")]),
           (2, Patch.Ins "v"), (3, Patch.DEL)], .resolved) := by
  apply bulk_phases_order
  · intro k v hm
    simp at hm
  · intro k fields hm
    simp at hm
    obtain ⟨hk, hf⟩ := hm
    subst hf
    exact ⟨⟨some [("b", "x")], none⟩, by simp [diffToMongo, diffLoop, objUpd]⟩

/-- Counterexample to claim C3 as stated: the batch
`{1: Mrg({a: Mrg({b: Rpl "x"})}), 2: Ins "v"}` contains only Merge and
Insert entries, yet no update command is issued for the Merge entry
(its translation throws on the nested merge), the queued insert is
never sent, and the returned promise rejects — instead of the claimed
one-update-then-one-insert sequence. -/
theorem bulk_nested_merge_breaks_phases :
    bulkRun (fun _ => "") (fun s : String => s) (fun _ _ => true)
        (fun _ => true) (fun _ => true)
        [((1 : Nat), Patch.Mrg [("a", Patch.Mrg [("b", Patch.Rpl "x")])]),
         (2, Patch.Ins "v")]
      = ([], .rejected) := by
  simp [bulkRun, classify, execUpdates, diffToMongo, diffLoop, jsGetSized]

/-- Claim C4: if the update phase of `bulk` fails, the whole bulk
operation rejects, the queued bulk-insert and bulk-delete commands are
never issued (every issued command is a per-key update, exactly the
update-phase trace — the updates committed before the failing call are
issued and nothing rolls them back). -/
theorem bulk_update_failure_aborts {K V E : Type} (toStr : Patch V → String)
    (fromJSON : V → E) (backendOk : K → MongoCommand V → Bool)
    (insertOk : List E → Bool) (deleteOk : List K → Bool)
    (patch : List (K × Patch V))
    (honly : ∀ k v, (k, Patch.Rpl v) ∉ patch)
    (hfail : (execUpdates toStr backendOk (mrgEntries patch)
        : List (BackendCmd K V E) × Bool).2 = false) :
    (bulkRun toStr fromJSON backendOk insertOk deleteOk patch).2 = .rejected ∧
    (bulkRun toStr fromJSON backendOk insertOk deleteOk patch).1
      = (execUpdates toStr backendOk (mrgEntries patch)).1 ∧
    ∀ c ∈ (bulkRun toStr fromJSON backendOk insertOk deleteOk patch).1,
      ∃ k cmd, c = BackendCmd.updateOne k cmd := by
  have hc := classify_ok fromJSON patch honly ⟨[], [], []⟩
  simp only [List.nil_append] at hc
  have h2 : bulkRun toStr fromJSON backendOk insertOk deleteOk patch
      = ((execUpdates toStr backendOk (mrgEntries patch)).1, .rejected) := by
    unfold bulkRun
    rw [hc]
    simp only [hfail]
    simp
  refine ⟨by rw [h2], by rw [h2], ?_⟩
  rw [h2]
  exact execUpdates_shape toStr backendOk (mrgEntries patch)

/-- Witness for claim C4: with a backend whose update call fails, a
batch of one merge and one insert issues only the failing update and
rejects; the insert is never sent. -/
theorem bulk_update_failure_aborts_witness :
    (bulkRun (fun _ => "") (fun s : String => s) (fun _ _ => false)
        (fun _ => true) (fun _ => true)
        [((1 : Nat), Patch.Mrg [("b", Patch.Rpl "x")]), (2, Patch.Ins "v")]).2
      = .rejected ∧
    (bulkRun (fun _ => "") (fun s : String => s) (fun _ _ => false)
        (fun _ => true) (fun _ => true)
        [((1 : Nat), Patch.Mrg [("b", Patch.Rpl "x")]), (2, Patch.Ins "v")]).1
      = (execUpdates (fun _ => "") (fun _ _ => false)
          (mrgEntries [((1 : Nat), Patch.Mrg [("b", Patch.Rpl "x")]),
            (2, Patch.Ins "v")])).1 := by
  have honly : ∀ (k : Nat) (v : String),
      (k, Patch.Rpl v)
        ∉ [((1 : Nat), Patch.Mrg [("b", Patch.Rpl "x")]), (2, Patch.Ins "v")] := by
    intro k v hm
    simp at hm
  have hfail : (execUpdates (fun _ => "") (fun _ _ => false)
      (mrgEntries [((1 : Nat), Patch.Mrg [("b", Patch.Rpl "x")]),
        (2, Patch.Ins "v")])
      : List (BackendCmd Nat String String) × Bool).2 = false := by
    simp [mrgEntries, execUpdates, diffToMongo, diffLoop, objUpd]
  obtain ⟨h1, h2, _⟩ := bulk_update_failure_aborts (fun _ => "")
    (fun s : String => s) (fun _ _ => false) (fun _ => true) (fun _ => true)
    [((1 : Nat), Patch.Mrg [("b", Patch.Rpl "x")]), (2, Patch.Ins "v")]
    honly hfail
  exact ⟨h1, h2⟩

/-- Claim C6: for a predicate whose name has no registered translation,
`toMongoCriteria` fails with the unsupported-index error (it is a pure
lookup, performing no backend call), and consequently `findAll` and
`removeAll` fail the same way while issuing no backend query and — for
`removeAll` — leaving the collection unaltered. -/
theorem unregistered_index_no_backend_call {V E' : Type} [DecidableEq V]
    (im : IndexMap V) (fromJSON : Doc V → E') (value : Doc V → Doc V)
    (index : NamedPredicate) (v : V) (st : Collection V)
    (h : jsGet im.maps index.name = none) :
    im.toMongoCriteria index v = .error (.unsupportedIndex index.name) ∧
    storeFindAll im fromJSON value index v st
      = ([], .error (.unsupportedIndex index.name)) ∧
    storeRemoveAll im index v st
      = ([], st, .error (.unsupportedIndex index.name)) := by
  have ht : im.toMongoCriteria index v = .error (.unsupportedIndex index.name) := by
    simp [IndexMap.toMongoCriteria, h]
  exact ⟨ht, by simp [storeFindAll, ht], by simp [storeRemoveAll, ht]⟩

/-- Witness for claim C6: against an empty registry, the index named
`byA` fails translation, `findAll` issues no query, and `removeAll`
leaves the one-document collection untouched. -/
theorem unregistered_index_no_backend_call_witness :
    IndexMap.toMongoCriteria (⟨[]⟩ : IndexMap String) ⟨"byA"⟩ "hello"
      = .error (.unsupportedIndex "byA") ∧
    storeFindAll (⟨[]⟩ : IndexMap String) (fun d => d) (fun d => d) ⟨"byA"⟩
        "hello" [[("_id", "1")]]
      = ([], .error (.unsupportedIndex "byA")) ∧
    storeRemoveAll (⟨[]⟩ : IndexMap String) ⟨"byA"⟩ "hello" [[("_id", "1")]]
      = ([], [[("_id", "1")]], .error (.unsupportedIndex "byA")) :=
  unregistered_index_no_backend_call ⟨[]⟩ (fun d => d) (fun d => d) ⟨"byA"⟩
    "hello" [[("_id", "1")]] rfl

/-- Claim C7: `update` is idempotent under the default options — with
`options.entry = (_id, data) => Object.assign({}, data, {_id})` the
stored document always matches the `{_id}` upsert filter, so applying
`update(e)` twice leaves the collection in the same state as applying
it once, and a subsequent `find(key(e))` returns the same result in
both cases (for every entity constructor and value extractor). -/
theorem update_idempotent {V : Type} [DecidableEq V] (key : Doc V → V)
    (st : Collection V) (e : Doc V) :
    storeUpdate key defaultEntry (storeUpdate key defaultEntry st e) e
      = storeUpdate key defaultEntry st e ∧
    ∀ (E' : Type) (fromJSON : Doc V → E') (value : Doc V → Doc V),
      storeFind fromJSON value
          (storeUpdate key defaultEntry (storeUpdate key defaultEntry st e) e)
          (key e)
        = storeFind fromJSON value (storeUpdate key defaultEntry st e) (key e) := by
  have hd : docMatches [("_id", key e)] (defaultEntry (key e) e) = true := by
    simp [docMatches, defaultEntry, jsGet_objUpd_self]
  have h1 : storeUpdate key defaultEntry (storeUpdate key defaultEntry st e) e
      = storeUpdate key defaultEntry st e :=
    updateOneUpsert_idem [("_id", key e)] (defaultEntry (key e) e) hd st
  exact ⟨h1, fun E' fromJSON value => by rw [h1]⟩

/-- Claim C9: `find(k)` fails with `DoesNotExist` exactly when the
collection holds no document whose `_id` is `k`; when `findOne`
returns a document, `find` returns the entity constructed from it via
`options.value` and `type.fromJSON`. -/
theorem find_not_found_or_entity {V E' : Type} [DecidableEq V]
    (fromJSON : Doc V → E') (value : Doc V → Doc V) (st : Collection V)
    (k : V) :
    ((∀ d ∈ st, jsGet d "_id" ≠ some k) →
        storeFind fromJSON value st k = .error .doesNotExist) ∧
    (∀ d, findOne st [("_id", k)] = some d →
        storeFind fromJSON value st k = .ok (fromJSON (value d))) := by
  constructor
  · intro hno
    have hfo : findOne st [("_id", k)] = none := by
      unfold findOne
      rw [List.find?_eq_none]
      intro d hd
      simp [docMatches, hno d hd]
    simp [storeFind, hfo]
  · intro d hd
    simp [storeFind, hd]

/-- Witness for claim C9: a collection holding only the key `1`; `find 2`
fails with `DoesNotExist`, `find 1` returns the stored entity. -/
theorem find_not_found_or_entity_witness :
    storeFind (fun d => d) (fun d => d) [[("_id", (1 : Int))]] 2
      = .error .doesNotExist ∧
    storeFind (fun d => d) (fun d => d) [[("_id", (1 : Int))]] 1
      = .ok [("_id", 1)] := by
  constructor
  · exact (find_not_found_or_entity (fun d => d) (fun d => d)
      [[("_id", (1 : Int))]] 2).1 (by decide)
  · exact (find_not_found_or_entity (fun d => d) (fun d => d)
      [[("_id", (1 : Int))]] 1).2 [("_id", 1)] (by decide)

/-- Claim C8: `addSimpleField(index, name)` binds the predicate's name
to the constructor producing the one-field equality criteria
`{[name]: value}`, and the returned registry preserves every other
binding, so registrations chain fluently. -/
theorem addSimpleField_registers_equality {V : Type} (im : IndexMap V)
    (p : NamedPredicate) (n : String) (v : V) :
    (im.addSimpleField p n).toMongoCriteria p v = .ok [(n, v)] ∧
    ∀ (q : NamedPredicate) (w : V), q.name ≠ p.name →
      (im.addSimpleField p n).toMongoCriteria q w
        = im.toMongoCriteria q w := by
  constructor
  · simp [IndexMap.addSimpleField, IndexMap.toMongoCriteria, jsGet_objUpd_self]
  · intro q w hq
    simp [IndexMap.addSimpleField, IndexMap.toMongoCriteria,
      jsGet_objUpd_ne im.maps p.name q.name _ hq]

/-- Witness for claim C8: chaining a registration of `byA` on field `a`
onto the empty registry translates `byA` to `{a: "hello"}` and leaves
the (unregistered) `byB` lookup unchanged. -/
theorem addSimpleField_registers_equality_witness :
    (IndexMap.addSimpleField (⟨[]⟩ : IndexMap String) ⟨"byA"⟩ "a").toMongoCriteria
        ⟨"byA"⟩ "hello" = .ok [("a", "hello")] ∧
    (IndexMap.addSimpleField (⟨[]⟩ : IndexMap String) ⟨"byA"⟩ "a").toMongoCriteria
        ⟨"byB"⟩ "x" = (⟨[]⟩ : IndexMap String).toMongoCriteria ⟨"byB"⟩ "x" := by
  obtain ⟨h1, h2⟩ := addSimpleField_registers_equality (⟨[]⟩ : IndexMap String)
    ⟨"byA"⟩ "a" "hello"
  exact ⟨h1, h2 ⟨"byB"⟩ "x" (by decide)⟩

end DbPlumbing
